import Mathlib

/-!
Verification development for the chat-group summarizer repository.

The development shallowly embeds the algorithmic core of the repository:

* `enhanced-fetch-messages.js`: `fetchChatMessagesEnhanced` (backward
  pagination over a reverse-chronological feed with a page cap of 20),
  `fetchChatMessagesSimple` (single-page fetch with client-side filtering)
  and `fetchChatMessagesSmart` (strategy selection by elapsed days).
* `index.js`: `summarizeConversations` (bounded retry with exponential
  backoff around the generative call).
* `diagnostics.js`: `startTimer` / `recordApiCall` / `recordRequest`
  (metrics counters).

Instants are modelled as integers (milliseconds); the upstream HTTP platform
is modelled as an environment: a probe outcome for endpoint discovery and a
function from page-request index to page response.  Traces of issued
requests are recorded explicitly so that request counts are provable facts.
-/

/-- A message record as returned by the upstream API
(`records: [{id, creatorId, creationTime, text?}]`).  `creationTime` is the
instant in milliseconds; the JS code parses the ISO string with `new Date`
and compares numerically, which the integer model reflects directly. -/
structure MsgRecord where
  id : String
  creatorId : String
  creationTime : Int
  text : Option String
deriving DecidableEq, Repr

/-- One page of upstream results: `{records, navigation: {nextPageToken?}}`. -/
structure Page where
  records : List MsgRecord
  nextPageToken : Option String
deriving DecidableEq, Repr

/-- The error object thrown as `new APIError(message, status, service)` in
`error-handler.js`; `status` is absent when the underlying error had none. -/
structure APIErrorE where
  message : String
  status : Option Int
  service : String
deriving DecidableEq, Repr

/-- The outcome of the endpoint-discovery probe
`platform.get(teamsEndpoint, {qs:{recordCount:1}})`.  On failure the code
inspects `error.response && error.response.status === 404` (modelled by
`responseStatus`) and otherwise rethrows with `error.status`. -/
structure ProbeError where
  responseStatus : Option Int
  status : Option Int
deriving DecidableEq, Repr

/-- A request issued against the upstream platform: either the single
endpoint-discovery probe or a page request against the resolved endpoint. -/
inductive Req where
  | probe (endpoint : String)
  | page (endpoint : String)
deriving DecidableEq, Repr

/-- Whether a request is the endpoint-discovery probe. -/
def Req.isProbe : Req → Bool
  | .probe _ => true
  | .page _ => false

/-- The teams route variant: `/restapi/v1.0/glip/teams/${chatId}/posts`. -/
def teamsEndpoint (chatId : String) : String :=
  "/restapi/v1.0/glip/teams/" ++ chatId ++ "/posts"

/-- The chats route variant: `/restapi/v1.0/glip/chats/${chatId}/posts`. -/
def chatsEndpoint (chatId : String) : String :=
  "/restapi/v1.0/glip/chats/" ++ chatId ++ "/posts"

/-- Endpoint discovery from `fetchChatMessagesEnhanced` (and, identically,
`fetchChatMessagesSimple`): try the teams endpoint; on a 404 response fall
back to the chats endpoint; any other probe failure is rethrown as
`new APIError("Failed to determine endpoint for chat " + chatId,
error.status, "RingCentral")`. -/
def resolveEndpoint (chatId : String) (probe : Except ProbeError Unit) :
    Except APIErrorE String :=
  match probe with
  | .ok _ => .ok (teamsEndpoint chatId)
  | .error e =>
    if e.responseStatus = some 404 then
      .ok (chatsEndpoint chatId)
    else
      .error ⟨"Failed to determine endpoint for chat " ++ chatId, e.status, "RingCentral"⟩

/-- The in-range test from the pagination loop:
`messageTime >= dateFrom && messageTime <= dateTo`. -/
def inRangeB (dateFrom dateTo : Int) (r : MsgRecord) : Bool :=
  decide (dateFrom ≤ r.creationTime) && decide (r.creationTime ≤ dateTo)

/-- The older-than-range test from the pagination loop:
`messageTime < dateFrom`. -/
def olderB (dateFrom : Int) (r : MsgRecord) : Bool :=
  decide (r.creationTime < dateFrom)

/-- The safety page cap of `fetchChatMessagesEnhanced`:
`const maxPages = 20`. -/
def maxPages : Nat := 20

/-- The page size of `fetchChatMessagesEnhanced`:
`const recordsPerPage = 250` (the API maximum; it does not influence the
control flow modelled here). -/
def recordsPerPage : Nat := 250

/-- Result of the pagination while-loop: the page requests issued (in
order) and either the thrown `APIError` or the collected messages together
with the final value of `pagesProcessed`. -/
structure LoopOut where
  trace : List Req
  result : Except APIErrorE (List MsgRecord × Nat)
deriving Repr

/-- The body of the `while (pagesProcessed < maxPages && !foundOlderThanRange)`
loop of `fetchChatMessagesEnhanced`, with the remaining iteration budget
`fuel = maxPages - pagesProcessed` made explicit.  Each iteration issues one
page request (`feed pages`); a failed request throws
`new APIError("Failed to fetch page " + (pagesProcessed+1) + " from " + endpoint,
error.status, "RingCentral")`; an empty page stops; otherwise in-range
records are appended, `foundOlderThanRange` is any record older than
`dateFrom`, `pagesProcessed` is incremented, and the loop stops when an
older record was found or the page has no continuation token. -/
def fetchGo (ep : String) (feed : Nat → Except (Option Int) Page)
    (dateFrom dateTo : Int) :
    Nat → Nat → List MsgRecord → LoopOut
  | 0, pages, acc => ⟨[], .ok (acc, pages)⟩
  | fuel + 1, pages, acc =>
    match feed pages with
    | .error st =>
        ⟨[.page ep],
         .error ⟨"Failed to fetch page " ++ toString (pages + 1) ++ " from " ++ ep,
                 st, "RingCentral"⟩⟩
    | .ok page =>
      if page.records.isEmpty then
        ⟨[.page ep], .ok (acc, pages)⟩
      else if page.records.any (olderB dateFrom) then
        ⟨[.page ep], .ok (acc ++ page.records.filter (inRangeB dateFrom dateTo), pages + 1)⟩
      else if page.nextPageToken.isNone then
        ⟨[.page ep], .ok (acc ++ page.records.filter (inRangeB dateFrom dateTo), pages + 1)⟩
      else
        ⟨.page ep ::
           (fetchGo ep feed dateFrom dateTo fuel (pages + 1)
             (acc ++ page.records.filter (inRangeB dateFrom dateTo))).trace,
         (fetchGo ep feed dateFrom dateTo fuel (pages + 1)
           (acc ++ page.records.filter (inRangeB dateFrom dateTo))).result⟩

/-- The ordering used by the final
`allMessages.sort((a, b) => new Date(a.creationTime) - new Date(b.creationTime))`. -/
def byTime (a b : MsgRecord) : Prop :=
  a.creationTime ≤ b.creationTime

instance : DecidableRel byTime := fun a b => Int.decLe a.creationTime b.creationTime

instance : IsTotal MsgRecord byTime := ⟨fun a b => Int.le_total a.creationTime b.creationTime⟩

instance : IsTrans MsgRecord byTime := ⟨fun _ _ _ h h2 => le_trans h h2⟩

/-- The final chronological sort of the collected messages.  JS
`Array.prototype.sort` is a stable sort under the comparator; a stable sort
by `creationTime` is modelled by insertion sort under `byTime`. -/
def sortMessages (l : List MsgRecord) : List MsgRecord :=
  l.insertionSort byTime

/-- Observable outcome of one fetch invocation: the requests issued against
the platform (probe first, then page requests), whether the
maximum-page-limit warning was logged, and the returned messages or the
thrown `APIError`. -/
structure FetchRun where
  requests : List Req
  warned : Bool
  result : Except APIErrorE (List MsgRecord)
deriving Repr

/-- The tail of `fetchChatMessagesEnhanced` after the pagination loop: a
thrown `APIError` propagates (before the warning check is reached);
otherwise the cap warning is logged when `pagesProcessed >= maxPages` and
the collected messages are returned sorted chronologically.  The probe
request is prepended to the page-request trace. -/
def assembleRun (chatId : String) (lo : LoopOut) : FetchRun :=
  match lo with
  | ⟨trace, .error e⟩ => ⟨.probe (teamsEndpoint chatId) :: trace, false, .error e⟩
  | ⟨trace, .ok (msgs, pages)⟩ =>
      ⟨.probe (teamsEndpoint chatId) :: trace, decide (maxPages ≤ pages),
       .ok (sortMessages msgs)⟩

/-- `fetchChatMessagesEnhanced(platform, chatId, dateFrom, dateTo)`: resolve
the endpoint, walk the paginated feed backward (cap `maxPages`), then
assemble the outcome per `assembleRun`. -/
def fetchChatMessagesEnhanced (chatId : String) (probe : Except ProbeError Unit)
    (feed : Nat → Except (Option Int) Page) (dateFrom dateTo : Int) : FetchRun :=
  match resolveEndpoint chatId probe with
  | .error e => ⟨[.probe (teamsEndpoint chatId)], false, .error e⟩
  | .ok ep => assembleRun chatId (fetchGo ep feed dateFrom dateTo maxPages 0 [])

/-- `fetchChatMessagesSimple(platform, chatId, dateFrom, dateTo)`: resolve
the endpoint, issue a single page request for the most recent page, filter
client-side by the window, and reverse to ascending order.  A failed page
request throws
`new APIError("Failed to fetch messages from " + endpoint, error.status,
"RingCentral")`. -/
def fetchChatMessagesSimple (chatId : String) (probe : Except ProbeError Unit)
    (feed : Nat → Except (Option Int) Page) (dateFrom dateTo : Int) : FetchRun :=
  match resolveEndpoint chatId probe with
  | .error e => ⟨[.probe (teamsEndpoint chatId)], false, .error e⟩
  | .ok ep =>
    match feed 0 with
    | .error st =>
        ⟨[.probe (teamsEndpoint chatId), .page ep], false,
         .error ⟨"Failed to fetch messages from " ++ ep, st, "RingCentral"⟩⟩
    | .ok page =>
        ⟨[.probe (teamsEndpoint chatId), .page ep], false,
         .ok ((page.records.filter (inRangeB dateFrom dateTo)).reverse)⟩

/-- Milliseconds per day, the divisor in
`Math.ceil((now - dateFrom) / (1000 * 60 * 60 * 24))`. -/
def msPerDay : Int := 1000 * 60 * 60 * 24

/-- `const daysDifference = Math.ceil((now - dateFrom) / (1000*60*60*24))`.
For an integer difference and a positive divisor the real-valued ceiling is
`-((-(now - dateFrom)) / msPerDay)` with floor (Euclidean) integer division. -/
def daysDifference (now dateFrom : Int) : Int :=
  -((-(now - dateFrom)) / msPerDay)

/-- Which fetch strategy `fetchChatMessagesSmart` delegates to. -/
inductive SmartChoice where
  | simple
  | enhanced
deriving DecidableEq, Repr

/-- The strategy branch of `fetchChatMessagesSmart`:
`if (daysDifference <= 3)` use the simple fetch, otherwise the enhanced
paginated fetch. -/
def smartStrategy (now dateFrom : Int) : SmartChoice :=
  if daysDifference now dateFrom ≤ 3 then .simple else .enhanced

/-- `fetchChatMessagesSmart(platform, chatId, dateFrom, dateTo)`: dispatch
on the strategy branch. -/
def fetchChatMessagesSmart (now : Int) (chatId : String)
    (probe : Except ProbeError Unit) (feed : Nat → Except (Option Int) Page)
    (dateFrom dateTo : Int) : FetchRun :=
  match smartStrategy now dateFrom with
  | .simple => fetchChatMessagesSimple chatId probe feed dateFrom dateTo
  | .enhanced => fetchChatMessagesEnhanced chatId probe feed dateFrom dateTo

/-- Whether the character list `needle` is an initial segment of `hay`. -/
def leadsWith : List Char → List Char → Bool
  | [], _ => true
  | _ :: _, [] => false
  | b :: bs, a :: as => b == a && leadsWith bs as

/-- Whether the character list `needle` occurs contiguously in `hay`. -/
def occursIn (needle hay : List Char) : Bool :=
  match hay with
  | [] => leadsWith needle []
  | _ :: t => leadsWith needle hay || occursIn needle t

/-- JS `hay.includes(needle)` on strings. -/
def includesStr (hay needle : String) : Bool :=
  occursIn needle.toList hay.toList

/-- The outcome of one `model.generateContent(prompt)` call: the generated
text, or a thrown error with its message and status. -/
inductive CallOutcome where
  | ok (text : String)
  | err (message : String) (status : Option Int)
deriving DecidableEq, Repr

/-- The transient-overload test of the retry loop:
the caught error satisfies `error.message.includes('503')`. -/
def isTransientB : CallOutcome → Bool
  | .ok _ => false
  | .err m _ => includesStr m "503"

/-- Result of `summarizeConversations`: the summary text, a thrown
`APIError`, or the undefined value returned if the while loop were ever to
exit normally (unreachable from the initial retry budget). -/
inductive SummarizeResult where
  | success (text : String)
  | failure (e : APIErrorE)
  | undefinedReturn
deriving DecidableEq, Repr

/-- Observable outcome of the retry loop: how many `generateContent` calls
were made, the waits (ms) performed between consecutive calls, and the
result. -/
structure RetryRun where
  calls : Nat
  waits : List Nat
  result : SummarizeResult
deriving DecidableEq, Repr

/-- The `while (retries > 0)` retry loop of `summarizeConversations`,
recursing on the remaining retry budget.  On success the text is returned;
on a 503-bearing error the budget is decremented and, if budget remains,
the loop waits `delay` ms and doubles it; with no budget left it throws
`new APIError("Gemini API is overloaded after multiple retries.", 503,
"Gemini")`; any other error throws
`new APIError("Gemini API error: " + error.message, error.status, "Gemini")`
immediately. -/
def summarizeLoop (attempt : Nat → CallOutcome) :
    Nat → Nat → Nat → List Nat → RetryRun
  | 0, _, callIdx, waits => ⟨callIdx, waits, .undefinedReturn⟩
  | retries + 1, delay, callIdx, waits =>
    match attempt callIdx with
    | .ok text => ⟨callIdx + 1, waits, .success text⟩
    | .err msg status =>
      if includesStr msg "503" then
        if retries > 0 then
          summarizeLoop attempt retries (delay * 2) (callIdx + 1) (waits ++ [delay])
        else
          ⟨callIdx + 1, waits,
           .failure ⟨"Gemini API is overloaded after multiple retries.", some 503, "Gemini"⟩⟩
      else
        ⟨callIdx + 1, waits,
         .failure ⟨"Gemini API error: " ++ msg, status, "Gemini"⟩⟩

/-- The retrying core of `summarizeConversations`:
`let retries = 3; let delay = 2000;` then the retry loop. -/
def summarizeConversations (attempt : Nat → CallOutcome) : RetryRun :=
  summarizeLoop attempt 3 2000 0 []

/-- Per-service counters from `DiagnosticsManager.apiCallStats`:
`{ calls, errors, totalTime }`.  `totalTime` is an integer because the JS
code adds whatever duration it is handed. -/
structure ServiceStats where
  calls : Nat
  errors : Nat
  totalTime : Int
deriving DecidableEq, Repr

/-- The mutable state of `DiagnosticsManager`: `startTime = Date.now()` at
construction, the request/error counters, and the per-service stats table
(a JS object modelled as an association list). -/
structure DiagState where
  startTime : Int
  requestCount : Nat
  errorCount : Nat
  apiCallStats : List (String × ServiceStats)
deriving DecidableEq, Repr

/-- The constructor of `DiagnosticsManager`, seeded with the two known
services, at construction instant `now`. -/
def initState (now : Int) : DiagState :=
  ⟨now, 0, 0, [("ringcentral", ⟨0, 0, 0⟩), ("gemini", ⟨0, 0, 0⟩)]⟩

/-- Property lookup `stats[service]` on the modelled stats object. -/
def lookupStats : List (String × ServiceStats) → String → Option ServiceStats
  | [], _ => none
  | (k, w) :: rest, s => if k = s then some w else lookupStats rest s

/-- Property assignment `stats[service] = v` on the modelled stats object. -/
def setStats : List (String × ServiceStats) → String → ServiceStats →
    List (String × ServiceStats)
  | [], s, v => [(s, v)]
  | (k, w) :: rest, s, v =>
    if k = s then (k, v) :: rest else (k, w) :: setStats rest s v

/-- `recordApiCall(service, duration, error)`: initialize a zeroed entry for
an unseen service, then increment `calls`, add `duration` to `totalTime`,
and increment `errors` when an error was passed. -/
def recordApiCall (st : DiagState) (service : String) (duration : Int)
    (isError : Bool) : DiagState :=
  let cur := (lookupStats st.apiCallStats service).getD ⟨0, 0, 0⟩
  let upd : ServiceStats :=
    ⟨cur.calls + 1, cur.errors + (if isError then 1 else 0), cur.totalTime + duration⟩
  { st with apiCallStats := setStats st.apiCallStats service upd }

/-- `recordRequest(error)`: increment `requestCount`, and `errorCount` when
an error was passed. -/
def recordRequest (st : DiagState) (isError : Bool) : DiagState :=
  { st with requestCount := st.requestCount + 1,
            errorCount := st.errorCount + (if isError then 1 else 0) }

/-- A recorded metrics event: one call to `recordRequest` or `recordApiCall`. -/
inductive DiagOp where
  | request (isError : Bool)
  | apiCall (service : String) (duration : Int) (isError : Bool)
deriving DecidableEq, Repr

/-- Apply one metrics event to the diagnostics state. -/
def applyOp (st : DiagState) : DiagOp → DiagState
  | .request isError => recordRequest st isError
  | .apiCall service duration isError => recordApiCall st service duration isError

/-- Apply a sequence of metrics events in order. -/
def applyOps (st : DiagState) (ops : List DiagOp) : DiagState :=
  ops.foldl applyOp st

/-- Events whose recorded duration is non-negative. -/
def opDurOkB : DiagOp → Bool
  | .request _ => true
  | .apiCall _ duration _ => decide (0 ≤ duration)

/-- Soundness of the counters: errors never exceed requests, globally and
per service. -/
def statsWF (st : DiagState) : Prop :=
  st.errorCount ≤ st.requestCount ∧
  ∀ p ∈ st.apiCallStats, p.2.errors ≤ p.2.calls

/-- The handle returned by `startTimer(operation)`: it stores the operation
label and `startTime: performance.now()` captured at the call. -/
structure TimerHandle where
  operation : String
  startTime : Int
deriving DecidableEq, Repr

/-- `startTimer(operation)` at instant `perfNow`. -/
def startTimer (operation : String) (perfNow : Int) : TimerHandle :=
  ⟨operation, perfNow⟩

/-- The `end` closure of the handle returned by `startTimer`.  The JS body
is `const duration = performance.now() - this.startTime`; inside the arrow
function `this` is the `DiagnosticsManager`, so the subtraction uses the
manager construction time `mgr.startTime`, not the handle field
`handle.startTime` captured by `startTimer`. -/
def timerEnd (mgr : DiagState) (handle : TimerHandle) (perfNowEnd : Int) :
    String × Int :=
  (handle.operation, perfNowEnd - mgr.startTime)

/-- A sample in-range record used by concrete witnesses. -/
def recW : MsgRecord := ⟨"m1", "u1", 5, some "hello"⟩

/-- A sample record strictly older than the witness window `[0, 10]`. -/
def recOldW : MsgRecord := ⟨"m0", "u0", -7, some "old"⟩

/-- A witness feed: every page holds one in-range record and a continuation
token, so the pagination loop only ever stops at the safety cap. -/
def feedCapW : Nat → Except (Option Int) Page :=
  fun _ => .ok ⟨[recW], some "tok"⟩

/-- A witness feed: the first page continues, the second page contains a
record older than the window. -/
def feedOldW : Nat → Except (Option Int) Page :=
  fun i => if i = 0 then .ok ⟨[recW], some "tok"⟩ else .ok ⟨[recOldW, recW], some "tok"⟩

/-- A witness feed: the first page continues, the second page request fails
with a 500 status. -/
def feedErrW : Nat → Except (Option Int) Page :=
  fun i => if i = 0 then .ok ⟨[recW], some "tok"⟩ else .error (some 500)

/-- A witness feed: a single page with no continuation token. -/
def feedOneW : Nat → Except (Option Int) Page :=
  fun _ => .ok ⟨[recW], none⟩

/-- A witness behavior for the summarizer: 503 overload on the first two
calls, success on the third. -/
def attemptTwo503W : Nat → CallOutcome :=
  fun n => if n < 2 then .err "503 Service Unavailable" (some 503) else .ok "summary"

/-- A concrete behavior refuting the four-call reading of the retry budget:
503 overload on the first three calls, success afterwards. -/
def attemptThree503W : Nat → CallOutcome :=
  fun n => if n < 3 then .err "503 Service Unavailable" (some 503) else .ok "summary"

/-- A witness behavior for the summarizer: 503 overload on every call. -/
def attemptAll503W : Nat → CallOutcome :=
  fun _ => .err "[503 Service Unavailable] The model is overloaded" (some 503)

/-- A witness sequence of metrics events. -/
def opsW : List DiagOp :=
  [.request false, .apiCall "ringcentral" 12 false, .request true,
   .apiCall "gemini" 7 true, .apiCall "filesystem" 3 false]

/-- Spec-side reading used for the refinement comparison in the strategy
selector: the number of whole days that have elapsed between `dateFrom` and
`now`, i.e. the floor of the elapsed time measured in days.  This follows
the words of the spec ("elapsed whole days"), to be compared with the
implementation value `daysDifference`, which takes the ceiling. -/
def elapsedWholeDays (now dateFrom : Int) : Int :=
  (now - dateFrom) / msPerDay

/-- A page response on which the pagination loop continues to the next
page: the request succeeded, the page is non-empty, contains no record
older than the window, and carries a continuation token. -/
def contPageB (dateFrom : Int) (resp : Except (Option Int) Page) : Bool :=
  match resp with
  | .error _ => false
  | .ok q =>
    !q.records.isEmpty && !q.records.any (olderB dateFrom) && q.nextPageToken.isSome

/-- The in-range records of one page response (none for a failed request). -/
def pageInRange (dateFrom dateTo : Int) (resp : Except (Option Int) Page) :
    List MsgRecord :=
  match resp with
  | .error _ => []
  | .ok q => q.records.filter (inRangeB dateFrom dateTo)

/-- The concatenated in-range records of `n` consecutive pages of the feed
starting at page index `start`. -/
def pagesFilterConcat (feed : Nat → Except (Option Int) Page) (dateFrom dateTo : Int) :
    Nat → Nat → List MsgRecord
  | _, 0 => []
  | start, n + 1 =>
    pageInRange dateFrom dateTo (feed start) ++
      pagesFilterConcat feed dateFrom dateTo (start + 1) n

/-- The number of page requests (excluding the endpoint-discovery probe)
issued during a fetch invocation. -/
def pageReqCount (run : FetchRun) : Nat :=
  run.requests.countP (fun r => !r.isProbe)

/-- The ceiling-based branch condition is equivalent to the elapsed time
being at most 72 hours. -/
theorem daysDifference_le_three_iff (now dateFrom : Int) :
    daysDifference now dateFrom ≤ 3 ↔ now - dateFrom ≤ 3 * msPerDay := by
  unfold daysDifference msPerDay
  omega

/-- C9 (code bug): the `end` closure of the handle returned by
`startTimer` subtracts the manager construction time instead of the
instant recorded by `startTimer`.  With the manager constructed at instant
1000, a timer started at instant 100 and ended at instant 150 reports
duration `150 - 1000 = -850`, not the elapsed `150 - 100 = 50`. -/
theorem timerEnd_ignores_handle_startTime :
    (timerEnd (initState 1000) (startTimer "op" 100) 150).2 = 150 - 1000 ∧
    (timerEnd (initState 1000) (startTimer "op" 100) 150).2 ≠ 150 - 100 := by
  exact ⟨rfl, by decide⟩

/-- C8 (counterexample): with the window starting 3 days and 1 hour before
now, the elapsed whole days (spec reading: floor) equal 3, yet the selector
delegates to the enhanced paginated fetcher, because the code takes the
ceiling of the elapsed days. -/
theorem smartStrategy_floor_days_counterexample :
    elapsedWholeDays (3 * msPerDay + 3600000) 0 = 3 ∧
    smartStrategy (3 * msPerDay + 3600000) 0 = SmartChoice.enhanced := by
  exact ⟨by decide, by decide⟩

/-- C8 (amended): the strategy selector delegates to the single-page fetch
exactly when the elapsed time `now - dateFrom` is at most 72 hours
(equivalently, when the ceiling of the elapsed days is at most 3), and
otherwise to the paginated date-range fetcher; the single-page fetch issues
one page request, filters client-side by the window, and reverses the page
to ascending order. -/
theorem smartStrategy_simple_iff_72h (now dateFrom dateTo : Int) (chatId : String)
    (probe : Except ProbeError Unit) (feed : Nat → Except (Option Int) Page) :
    (smartStrategy now dateFrom = SmartChoice.simple ↔ now - dateFrom ≤ 3 * msPerDay) ∧
    fetchChatMessagesSmart now chatId probe feed dateFrom dateTo =
      (if now - dateFrom ≤ 3 * msPerDay
       then fetchChatMessagesSimple chatId probe feed dateFrom dateTo
       else fetchChatMessagesEnhanced chatId probe feed dateFrom dateTo) ∧
    (∀ ep page, resolveEndpoint chatId probe = .ok ep → feed 0 = .ok page →
       (fetchChatMessagesSimple chatId probe feed dateFrom dateTo).requests =
         [.probe (teamsEndpoint chatId), .page ep] ∧
       (fetchChatMessagesSimple chatId probe feed dateFrom dateTo).result =
         .ok ((page.records.filter (inRangeB dateFrom dateTo)).reverse)) := by
  have hd := daysDifference_le_three_iff now dateFrom
  refine ⟨?_, ?_, ?_⟩
  · unfold smartStrategy
    by_cases h : daysDifference now dateFrom ≤ 3
    · rw [if_pos h]
      exact ⟨fun _ => hd.mp h, fun _ => rfl⟩
    · rw [if_neg h]
      exact ⟨fun hc => SmartChoice.noConfusion hc, fun hc => absurd (hd.mpr hc) h⟩
  · by_cases h : daysDifference now dateFrom ≤ 3
    · rw [if_pos (hd.mp h)]
      unfold fetchChatMessagesSmart
      rw [show smartStrategy now dateFrom = SmartChoice.simple from by
        unfold smartStrategy; rw [if_pos h]]
    · rw [if_neg (fun hc => h (hd.mpr hc))]
      unfold fetchChatMessagesSmart
      rw [show smartStrategy now dateFrom = SmartChoice.enhanced from by
        unfold smartStrategy; rw [if_neg h]]
  · intro ep page hres hf
    unfold fetchChatMessagesSimple
    rw [hres, hf]
    exact ⟨rfl, rfl⟩

/-- C8 (witness): the amended statement instantiated at a window starting
two days before now, a succeeding probe and a one-page feed. -/
theorem smartStrategy_simple_iff_72h_wit :
    (smartStrategy (2 * msPerDay) 0 = SmartChoice.simple ↔
      (2 * msPerDay : Int) - 0 ≤ 3 * msPerDay) ∧
    (fetchChatMessagesSimple "7595909126" (.ok ()) feedOneW 0 10).requests =
      [.probe (teamsEndpoint "7595909126"), .page (teamsEndpoint "7595909126")] ∧
    (fetchChatMessagesSimple "7595909126" (.ok ()) feedOneW 0 10).result =
      .ok (((Page.mk [recW] none).records.filter (inRangeB 0 10)).reverse) := by
  have h := smartStrategy_simple_iff_72h (2 * msPerDay) 0 10 "7595909126" (.ok ()) feedOneW
  have h3 := h.2.2 (teamsEndpoint "7595909126") ⟨[recW], none⟩ rfl rfl
  exact ⟨h.1, h3.1, h3.2⟩

/-- C4 (counterexample): with a 503 overload on the first three calls and a
success available on the fourth, the caller makes exactly 3 calls (waiting
2000ms and 4000ms), throws the overload `APIError`, and never makes the
fourth call: decrementing `retries` on each 503 exhausts the budget of 3
at the third consecutive overload. -/
theorem summarize_three_503_no_fourth_call :
    (summarizeConversations attemptThree503W).calls = 3 ∧
    (summarizeConversations attemptThree503W).waits = [2000, 4000] ∧
    (summarizeConversations attemptThree503W).result =
      SummarizeResult.failure
        ⟨"Gemini API is overloaded after multiple retries.", some 503, "Gemini"⟩ ∧
    ¬((summarizeConversations attemptThree503W).calls = 4 ∧
      (summarizeConversations attemptThree503W).result = SummarizeResult.success "summary") := by
  decide

/-- C4 (amended): if the summarization call reports a transient-overload
(503) signal on 2 consecutive attempts and succeeds on the next attempt,
the resilient caller makes exactly 3 calls in total, waiting 2000ms and
4000ms between consecutive calls, and returns the successful result. -/
theorem summarize_two_503_then_success (attempt : Nat → CallOutcome) (txt : String)
    (h0 : isTransientB (attempt 0) = true)
    (h1 : isTransientB (attempt 1) = true)
    (h2 : attempt 2 = CallOutcome.ok txt) :
    (summarizeConversations attempt).calls = 3 ∧
    (summarizeConversations attempt).waits = [2000, 4000] ∧
    (summarizeConversations attempt).result = SummarizeResult.success txt := by
  rcases ha0 : attempt 0 with t0 | ⟨m0, s0⟩
  · rw [ha0] at h0; simp [isTransientB] at h0
  · rcases ha1 : attempt 1 with t1 | ⟨m1, s1⟩
    · rw [ha1] at h1; simp [isTransientB] at h1
    · rw [ha0] at h0; rw [ha1] at h1
      simp only [isTransientB] at h0 h1
      simp [summarizeConversations, summarizeLoop, ha0, ha1, h2, h0, h1]

/-- C4 (witness): the amended statement at the concrete behavior with two
503 responses followed by a success. -/
theorem summarize_two_503_then_success_wit :
    (summarizeConversations attemptTwo503W).calls = 3 ∧
    (summarizeConversations attemptTwo503W).waits = [2000, 4000] ∧
    (summarizeConversations attemptTwo503W).result = SummarizeResult.success "summary" :=
  summarize_two_503_then_success attemptTwo503W "summary" (by decide) (by decide) (by decide)

/-- C5: if the summarization call reports a transient-overload (503) signal
on every attempt, the caller with its retry budget of 3 makes exactly 3
calls (waiting 2000ms and 4000ms between them) and then throws the typed
overload `APIError` with status 503, making no further calls. -/
theorem summarize_all_503_three_calls_overload (attempt : Nat → CallOutcome)
    (h : ∀ n, isTransientB (attempt n) = true) :
    (summarizeConversations attempt).calls = 3 ∧
    (summarizeConversations attempt).waits = [2000, 4000] ∧
    (summarizeConversations attempt).result =
      SummarizeResult.failure
        ⟨"Gemini API is overloaded after multiple retries.", some 503, "Gemini"⟩ := by
  have h0 := h 0
  have h1 := h 1
  have h2 := h 2
  rcases ha0 : attempt 0 with t0 | ⟨m0, s0⟩
  · rw [ha0] at h0; simp [isTransientB] at h0
  · rcases ha1 : attempt 1 with t1 | ⟨m1, s1⟩
    · rw [ha1] at h1; simp [isTransientB] at h1
    · rcases ha2 : attempt 2 with t2 | ⟨m2, s2⟩
      · rw [ha2] at h2; simp [isTransientB] at h2
      · rw [ha0] at h0; rw [ha1] at h1; rw [ha2] at h2
        simp only [isTransientB] at h0 h1 h2
        simp [summarizeConversations, summarizeLoop, ha0, ha1, ha2, h0, h1, h2]

/-- C5 (witness): the statement at the concrete behavior that reports a
503 overload on every call. -/
theorem summarize_all_503_three_calls_overload_wit :
    (summarizeConversations attemptAll503W).calls = 3 ∧
    (summarizeConversations attemptAll503W).waits = [2000, 4000] ∧
    (summarizeConversations attemptAll503W).result =
      SummarizeResult.failure
        ⟨"Gemini API is overloaded after multiple retries.", some 503, "Gemini"⟩ :=
  summarize_all_503_three_calls_overload attemptAll503W (fun _ => rfl)

/-- Unfolding: a failed page request throws. -/
theorem fetchGo_err (ep : String) (feed : Nat → Except (Option Int) Page)
    (dateFrom dateTo : Int) (fuel pages : Nat) (acc : List MsgRecord)
    (st : Option Int) (hf : feed pages = .error st) :
    fetchGo ep feed dateFrom dateTo (fuel + 1) pages acc =
      ⟨[.page ep],
       .error ⟨"Failed to fetch page " ++ toString (pages + 1) ++ " from " ++ ep,
               st, "RingCentral"⟩⟩ := by
  rw [fetchGo, hf]

/-- Unfolding: an empty page stops the loop without advancing the counter. -/
theorem fetchGo_empty (ep : String) (feed : Nat → Except (Option Int) Page)
    (dateFrom dateTo : Int) (fuel pages : Nat) (acc : List MsgRecord)
    (page : Page) (hf : feed pages = .ok page) (he : page.records.isEmpty = true) :
    fetchGo ep feed dateFrom dateTo (fuel + 1) pages acc = ⟨[.page ep], .ok (acc, pages)⟩ := by
  rw [fetchGo, hf]
  simp [he]

/-- Unfolding: a page containing a record older than the window stops the
loop after classifying the page. -/
theorem fetchGo_older (ep : String) (feed : Nat → Except (Option Int) Page)
    (dateFrom dateTo : Int) (fuel pages : Nat) (acc : List MsgRecord)
    (page : Page) (hf : feed pages = .ok page) (he : page.records.isEmpty = false)
    (ho : page.records.any (olderB dateFrom) = true) :
    fetchGo ep feed dateFrom dateTo (fuel + 1) pages acc =
      ⟨[.page ep],
       .ok (acc ++ page.records.filter (inRangeB dateFrom dateTo), pages + 1)⟩ := by
  rw [fetchGo, hf]
  simp [he, ho]

/-- Unfolding: a page without a continuation token stops the loop after
classifying the page. -/
theorem fetchGo_last (ep : String) (feed : Nat → Except (Option Int) Page)
    (dateFrom dateTo : Int) (fuel pages : Nat) (acc : List MsgRecord)
    (page : Page) (hf : feed pages = .ok page) (he : page.records.isEmpty = false)
    (ho : page.records.any (olderB dateFrom) = false)
    (ht : page.nextPageToken.isNone = true) :
    fetchGo ep feed dateFrom dateTo (fuel + 1) pages acc =
      ⟨[.page ep],
       .ok (acc ++ page.records.filter (inRangeB dateFrom dateTo), pages + 1)⟩ := by
  rw [fetchGo, hf]
  simp [he, ho, ht]

/-- Unfolding: a non-empty page inside the window with a continuation token
lets the loop continue to the next page. -/
theorem fetchGo_step (ep : String) (feed : Nat → Except (Option Int) Page)
    (dateFrom dateTo : Int) (fuel pages : Nat) (acc : List MsgRecord)
    (page : Page) (hf : feed pages = .ok page) (he : page.records.isEmpty = false)
    (ho : page.records.any (olderB dateFrom) = false)
    (ht : page.nextPageToken.isNone = false) :
    fetchGo ep feed dateFrom dateTo (fuel + 1) pages acc =
      ⟨.page ep ::
         (fetchGo ep feed dateFrom dateTo fuel (pages + 1)
           (acc ++ page.records.filter (inRangeB dateFrom dateTo))).trace,
       (fetchGo ep feed dateFrom dateTo fuel (pages + 1)
         (acc ++ page.records.filter (inRangeB dateFrom dateTo))).result⟩ := by
  rw [fetchGo, hf]
  simp [he, ho, ht]

/-- Every request issued by the pagination loop is a page request against
the resolved endpoint. -/
theorem fetchGo_trace_pages (ep : String) (feed : Nat → Except (Option Int) Page)
    (dateFrom dateTo : Int) :
    ∀ fuel pages acc r, r ∈ (fetchGo ep feed dateFrom dateTo fuel pages acc).trace →
      r = Req.page ep := by
  intro fuel
  induction fuel with
  | zero =>
    intro pages acc r hr
    simp [fetchGo] at hr
  | succ n ih =>
    intro pages acc r hr
    cases hf : feed pages with
    | error st =>
      rw [fetchGo_err ep feed dateFrom dateTo n pages acc st hf] at hr
      simpa using hr
    | ok page =>
      cases he : page.records.isEmpty with
      | true =>
        rw [fetchGo_empty ep feed dateFrom dateTo n pages acc page hf he] at hr
        simpa using hr
      | false =>
        cases ho : page.records.any (olderB dateFrom) with
        | true =>
          rw [fetchGo_older ep feed dateFrom dateTo n pages acc page hf he ho] at hr
          simpa using hr
        | false =>
          cases ht : page.nextPageToken.isNone with
          | true =>
            rw [fetchGo_last ep feed dateFrom dateTo n pages acc page hf he ho ht] at hr
            simpa using hr
          | false =>
            rw [fetchGo_step ep feed dateFrom dateTo n pages acc page hf he ho ht] at hr
            simp only [List.mem_cons] at hr
            rcases hr with hr | hr
            · exact hr
            · exact ih (pages + 1)
                (acc ++ page.records.filter (inRangeB dateFrom dateTo)) r hr

/-- Every message the pagination loop returns either was already in the
accumulator or lies inside the window. -/
theorem fetchGo_result_mem (ep : String) (feed : Nat → Except (Option Int) Page)
    (dateFrom dateTo : Int) :
    ∀ fuel pages acc msgs k,
      (fetchGo ep feed dateFrom dateTo fuel pages acc).result = .ok (msgs, k) →
      ∀ m ∈ msgs, m ∈ acc ∨ inRangeB dateFrom dateTo m = true := by
  intro fuel
  induction fuel with
  | zero =>
    intro pages acc msgs k hok m hm
    simp only [fetchGo, Except.ok.injEq, Prod.mk.injEq] at hok
    rcases hok with ⟨h1, _⟩
    subst h1
    exact Or.inl hm
  | succ fn ih =>
    intro pages acc msgs k hok m hm
    cases hf : feed pages with
    | error st =>
      rw [fetchGo_err ep feed dateFrom dateTo fn pages acc st hf] at hok
      simp at hok
    | ok page =>
      cases he : page.records.isEmpty with
      | true =>
        rw [fetchGo_empty ep feed dateFrom dateTo fn pages acc page hf he] at hok
        simp only [Except.ok.injEq, Prod.mk.injEq] at hok
        rcases hok with ⟨h1, _⟩
        subst h1
        exact Or.inl hm
      | false =>
        cases ho : page.records.any (olderB dateFrom) with
        | true =>
          rw [fetchGo_older ep feed dateFrom dateTo fn pages acc page hf he ho] at hok
          simp only [Except.ok.injEq, Prod.mk.injEq] at hok
          rcases hok with ⟨h1, _⟩
          subst h1
          rcases List.mem_append.mp hm with hma | hmf
          · exact Or.inl hma
          · exact Or.inr (List.of_mem_filter hmf)
        | false =>
          cases ht : page.nextPageToken.isNone with
          | true =>
            rw [fetchGo_last ep feed dateFrom dateTo fn pages acc page hf he ho ht] at hok
            simp only [Except.ok.injEq, Prod.mk.injEq] at hok
            rcases hok with ⟨h1, _⟩
            subst h1
            rcases List.mem_append.mp hm with hma | hmf
            · exact Or.inl hma
            · exact Or.inr (List.of_mem_filter hmf)
          | false =>
            rw [fetchGo_step ep feed dateFrom dateTo fn pages acc page hf he ho ht] at hok
            rcases ih (pages + 1) (acc ++ page.records.filter (inRangeB dateFrom dateTo))
                msgs k hok m hm with hin | hin
            · rcases List.mem_append.mp hin with hma | hmf
              · exact Or.inl hma
              · exact Or.inr (List.of_mem_filter hmf)
            · exact Or.inr hin

/-- A list on which `any` holds is non-empty. -/
theorem any_true_isEmpty_false {l : List MsgRecord} {p : MsgRecord → Bool}
    (h : l.any p = true) : l.isEmpty = false := by
  cases l with
  | nil => simp at h
  | cons a t => rfl

/-- Destructing a page response on which the loop continues. -/
theorem contPageB_elim {dateFrom : Int} {resp : Except (Option Int) Page}
    (h : contPageB dateFrom resp = true) :
    ∃ q, resp = .ok q ∧ q.records.isEmpty = false ∧
      q.records.any (olderB dateFrom) = false ∧ q.nextPageToken.isNone = false := by
  cases resp with
  | error st => simp [contPageB] at h
  | ok q =>
    simp only [contPageB, Bool.and_eq_true, Bool.not_eq_true'] at h
    rcases h with ⟨⟨h1, h2⟩, h3⟩
    refine ⟨q, rfl, h1, h2, ?_⟩
    cases hq : q.nextPageToken with
    | none => rw [hq] at h3; simp at h3
    | some tok => rfl

/-- When every page up to the fuel bound lets the loop continue, the loop
consumes all its fuel, requesting each page once and collecting exactly the
concatenated in-range records. -/
theorem fetchGo_all_cont (ep : String) (feed : Nat → Except (Option Int) Page)
    (dateFrom dateTo : Int) :
    ∀ n pages acc, (∀ i, i < n → contPageB dateFrom (feed (pages + i)) = true) →
      fetchGo ep feed dateFrom dateTo n pages acc =
        ⟨List.replicate n (Req.page ep),
         .ok (acc ++ pagesFilterConcat feed dateFrom dateTo pages n, pages + n)⟩ := by
  intro n
  induction n with
  | zero =>
    intro pages acc h
    simp [fetchGo, pagesFilterConcat]
  | succ m ih =>
    intro pages acc h
    have h0 := h 0 (by omega)
    rw [Nat.add_zero] at h0
    rcases contPageB_elim h0 with ⟨q, hf, he, ho, ht⟩
    rw [fetchGo_step ep feed dateFrom dateTo m pages acc q hf he ho ht]
    rw [ih (pages + 1) (acc ++ q.records.filter (inRangeB dateFrom dateTo))
        (fun i hi => by
          have hc := h (i + 1) (by omega)
          rwa [show pages + (i + 1) = pages + 1 + i by omega] at hc)]
    rw [show pages + 1 + m = pages + (m + 1) from by omega]
    simp [List.replicate_succ, pagesFilterConcat, pageInRange, hf, List.append_assoc]

/-- When the pages before index `j` (relative to the start page) let the
loop continue and page `j` contains a record older than the window, the
loop requests exactly the pages up to and including `j`, collects the
in-range records of all of them, and stops there. -/
theorem fetchGo_cont_then_bad (ep : String) (feed : Nat → Except (Option Int) Page)
    (dateFrom dateTo : Int) (pj : Page)
    (hbad : pj.records.any (olderB dateFrom) = true) :
    ∀ j pages fuel acc, j < fuel →
      (∀ i, i < j → contPageB dateFrom (feed (pages + i)) = true) →
      feed (pages + j) = .ok pj →
      fetchGo ep feed dateFrom dateTo fuel pages acc =
        ⟨List.replicate (j + 1) (Req.page ep),
         .ok (acc ++ pagesFilterConcat feed dateFrom dateTo pages j ++
                pj.records.filter (inRangeB dateFrom dateTo), pages + j + 1)⟩ := by
  intro j
  induction j with
  | zero =>
    intro pages fuel acc hlt hcont hj
    cases fuel with
    | zero => omega
    | succ fn =>
      rw [Nat.add_zero] at hj
      rw [fetchGo_older ep feed dateFrom dateTo fn pages acc pj hj
          (any_true_isEmpty_false hbad) hbad]
      simp [pagesFilterConcat]
  | succ m ih =>
    intro pages fuel acc hlt hcont hj
    cases fuel with
    | zero => omega
    | succ fn =>
      have h0 := hcont 0 (by omega)
      rw [Nat.add_zero] at h0
      rcases contPageB_elim h0 with ⟨q, hf, he, ho, ht⟩
      rw [fetchGo_step ep feed dateFrom dateTo fn pages acc q hf he ho ht]
      rw [ih (pages + 1) fn (acc ++ q.records.filter (inRangeB dateFrom dateTo))
          (by omega)
          (fun i hi => by
            have hc := hcont (i + 1) (by omega)
            rwa [show pages + (i + 1) = pages + 1 + i by omega] at hc)
          (by rw [show pages + 1 + m = pages + (m + 1) by omega]; exact hj)]
      rw [show pages + 1 + m + 1 = pages + (m + 1) + 1 from by omega]
      simp [List.replicate_succ, pagesFilterConcat, pageInRange, hf, List.append_assoc]

/-- When the pages before index `k` (relative to the start page) let the
loop continue and the page request at index `k` fails, the loop requests
exactly the pages up to and including `k` and aborts with the typed
`APIError` naming the endpoint and the one-based page index. -/
theorem fetchGo_cont_then_err (ep : String) (feed : Nat → Except (Option Int) Page)
    (dateFrom dateTo : Int) (st : Option Int) :
    ∀ k pages fuel acc, k < fuel →
      (∀ i, i < k → contPageB dateFrom (feed (pages + i)) = true) →
      feed (pages + k) = .error st →
      fetchGo ep feed dateFrom dateTo fuel pages acc =
        ⟨List.replicate (k + 1) (Req.page ep),
         .error ⟨"Failed to fetch page " ++ toString (pages + k + 1) ++ " from " ++ ep,
                 st, "RingCentral"⟩⟩ := by
  intro k
  induction k with
  | zero =>
    intro pages fuel acc hlt hcont hk
    cases fuel with
    | zero => omega
    | succ fn =>
      rw [Nat.add_zero] at hk
      rw [fetchGo_err ep feed dateFrom dateTo fn pages acc st hk]
      simp
  | succ m ih =>
    intro pages fuel acc hlt hcont hk
    cases fuel with
    | zero => omega
    | succ fn =>
      have h0 := hcont 0 (by omega)
      rw [Nat.add_zero] at h0
      rcases contPageB_elim h0 with ⟨q, hf, he, ho, ht⟩
      rw [fetchGo_step ep feed dateFrom dateTo fn pages acc q hf he ho ht]
      rw [ih (pages + 1) fn (acc ++ q.records.filter (inRangeB dateFrom dateTo))
          (by omega)
          (fun i hi => by
            have hc := hcont (i + 1) (by omega)
            rwa [show pages + (i + 1) = pages + 1 + i by omega] at hc)
          (by rw [show pages + 1 + m = pages + (m + 1) by omega]; exact hk)]
      rw [show pages + 1 + m + 1 = pages + (m + 1) + 1 from by omega]
      simp [List.replicate_succ]

/-- As soon as some page of the feed contains a record older than the
window, the loop never issues a page request past that page, no matter how
it interleaves with errors, empty pages or missing tokens. -/
theorem fetchGo_trace_le_bad (ep : String) (feed : Nat → Except (Option Int) Page)
    (dateFrom dateTo : Int) (j : Nat) (pj : Page)
    (hj : feed j = .ok pj) (hbad : pj.records.any (olderB dateFrom) = true) :
    ∀ fuel pages acc, pages ≤ j →
      (fetchGo ep feed dateFrom dateTo fuel pages acc).trace.length ≤ j + 1 - pages := by
  intro fuel
  induction fuel with
  | zero =>
    intro pages acc hle
    simp [fetchGo]
  | succ fn ih =>
    intro pages acc hle
    cases hf : feed pages with
    | error st =>
      rw [fetchGo_err ep feed dateFrom dateTo fn pages acc st hf]
      simp
      omega
    | ok page =>
      cases he : page.records.isEmpty with
      | true =>
        rw [fetchGo_empty ep feed dateFrom dateTo fn pages acc page hf he]
        simp
        omega
      | false =>
        cases ho : page.records.any (olderB dateFrom) with
        | true =>
          rw [fetchGo_older ep feed dateFrom dateTo fn pages acc page hf he ho]
          simp
          omega
        | false =>
          cases ht : page.nextPageToken.isNone with
          | true =>
            rw [fetchGo_last ep feed dateFrom dateTo fn pages acc page hf he ho ht]
            simp
            omega
          | false =>
            rw [fetchGo_step ep feed dateFrom dateTo fn pages acc page hf he ho ht]
            have hne : pages ≠ j := by
              intro hpe
              subst hpe
              rw [hf] at hj
              have hqe : page = pj := Except.ok.inj hj
              rw [hqe] at ho
              rw [ho] at hbad
              simp at hbad
            have hrec := ih (pages + 1)
              (acc ++ page.records.filter (inRangeB dateFrom dateTo)) (by omega)
            simp only [List.length_cons]
            omega

/-- Characterization of an enhanced fetch whose endpoint resolution fails. -/
theorem fetchEnhanced_eq_res_err (chatId : String) (probe : Except ProbeError Unit)
    (feed : Nat → Except (Option Int) Page) (dateFrom dateTo : Int) (e : APIErrorE)
    (hres : resolveEndpoint chatId probe = .error e) :
    fetchChatMessagesEnhanced chatId probe feed dateFrom dateTo =
      ⟨[.probe (teamsEndpoint chatId)], false, .error e⟩ := by
  unfold fetchChatMessagesEnhanced
  rw [hres]

/-- Characterization of an enhanced fetch whose pagination loop throws. -/
theorem fetchEnhanced_eq_err (chatId : String) (probe : Except ProbeError Unit)
    (feed : Nat → Except (Option Int) Page) (dateFrom dateTo : Int) (ep : String)
    (e : APIErrorE) (hres : resolveEndpoint chatId probe = .ok ep) (tr : List Req)
    (hgo : fetchGo ep feed dateFrom dateTo maxPages 0 [] = ⟨tr, .error e⟩) :
    fetchChatMessagesEnhanced chatId probe feed dateFrom dateTo =
      ⟨.probe (teamsEndpoint chatId) :: tr, false, .error e⟩ := by
  unfold fetchChatMessagesEnhanced
  rw [hres]
  show assembleRun chatId (fetchGo ep feed dateFrom dateTo maxPages 0 []) = _
  rw [hgo]
  rfl

/-- Characterization of an enhanced fetch whose pagination loop succeeds. -/
theorem fetchEnhanced_eq_ok (chatId : String) (probe : Except ProbeError Unit)
    (feed : Nat → Except (Option Int) Page) (dateFrom dateTo : Int) (ep : String)
    (hres : resolveEndpoint chatId probe = .ok ep) (tr : List Req)
    (ms : List MsgRecord) (pg : Nat)
    (hgo : fetchGo ep feed dateFrom dateTo maxPages 0 [] = ⟨tr, .ok (ms, pg)⟩) :
    fetchChatMessagesEnhanced chatId probe feed dateFrom dateTo =
      ⟨.probe (teamsEndpoint chatId) :: tr, decide (maxPages ≤ pg),
       .ok (sortMessages ms)⟩ := by
  unfold fetchChatMessagesEnhanced
  rw [hres]
  show assembleRun chatId (fetchGo ep feed dateFrom dateTo maxPages 0 []) = _
  rw [hgo]
  rfl

/-- A request list whose elements all are page requests has no probes. -/
theorem countP_trace_pages (ep : String) (tr : List Req)
    (h : ∀ r ∈ tr, r = Req.page ep) :
    tr.countP (fun r => !r.isProbe) = tr.length := by
  induction tr with
  | nil => rfl
  | cons a t ih =>
    have ha := h a (by simp)
    subst ha
    rw [List.countP_cons, ih (fun r hr => h r (by simp [hr]))]
    simp [Req.isProbe]

/-- The page-request count of a run shaped as one probe followed by page
requests equals the number of page requests. -/
theorem pageReqCount_probe_cons (x : String) (tr : List Req) (w : Bool)
    (res : Except APIErrorE (List MsgRecord)) (ep : String)
    (h : ∀ r ∈ tr, r = Req.page ep) :
    pageReqCount ⟨Req.probe x :: tr, w, res⟩ = tr.length := by
  show List.countP (fun r => !r.isProbe) (Req.probe x :: tr) = tr.length
  rw [List.countP_cons, countP_trace_pages ep tr h]
  simp [Req.isProbe]

/-- The two route variants are distinct strings for every conversation
identifier. -/
theorem teamsEndpoint_ne_chatsEndpoint (chatId : String) :
    teamsEndpoint chatId ≠ chatsEndpoint chatId := by
  intro h
  have hd := congrArg String.data h
  simp only [teamsEndpoint, chatsEndpoint, String.data_append] at hd
  have h2 := List.append_cancel_right (List.append_cancel_right hd)
  exact absurd h2 (by decide)

/-- The requests of an enhanced fetch are one probe to the teams variant
followed by page requests against the resolved endpoint. -/
theorem fetchEnhanced_requests_shape (chatId : String) (probe : Except ProbeError Unit)
    (feed : Nat → Except (Option Int) Page) (dateFrom dateTo : Int) :
    ∃ tr, (fetchChatMessagesEnhanced chatId probe feed dateFrom dateTo).requests =
        Req.probe (teamsEndpoint chatId) :: tr ∧
      ∀ r ∈ tr, ∃ ep, resolveEndpoint chatId probe = .ok ep ∧ r = Req.page ep := by
  cases hres : resolveEndpoint chatId probe with
  | error e =>
    rw [fetchEnhanced_eq_res_err chatId probe feed dateFrom dateTo e hres]
    exact ⟨[], rfl, by simp⟩
  | ok ep =>
    rcases hlo : fetchGo ep feed dateFrom dateTo maxPages 0 [] with ⟨tr, res⟩
    have htrp : ∀ r ∈ tr, r = Req.page ep := fun r hr =>
      fetchGo_trace_pages ep feed dateFrom dateTo maxPages 0 [] r (by rw [hlo]; exact hr)
    cases res with
    | error e =>
      rw [fetchEnhanced_eq_err chatId probe feed dateFrom dateTo ep e hres tr hlo]
      exact ⟨tr, rfl, fun r hr => ⟨ep, rfl, htrp r hr⟩⟩
    | ok pr =>
      rcases pr with ⟨ms, pg⟩
      rw [fetchEnhanced_eq_ok chatId probe feed dateFrom dateTo ep hres tr ms pg hlo]
      exact ⟨tr, rfl, fun r hr => ⟨ep, rfl, htrp r hr⟩⟩

/-- C1: for every upstream history and every window with `dateFrom ≤ dateTo`,
the paginated date-range fetcher returns only messages whose `creationTime`
lies in the inclusive window, sorted non-decreasing by `creationTime`. -/
theorem fetchEnhanced_inRange_sorted (chatId : String) (probe : Except ProbeError Unit)
    (feed : Nat → Except (Option Int) Page) (dateFrom dateTo : Int)
    (msgs : List MsgRecord) (hwin : dateFrom ≤ dateTo)
    (hok : (fetchChatMessagesEnhanced chatId probe feed dateFrom dateTo).result =
      .ok msgs) :
    (∀ m ∈ msgs, dateFrom ≤ m.creationTime ∧ m.creationTime ≤ dateTo) ∧
    List.Sorted byTime msgs := by
  cases hres : resolveEndpoint chatId probe with
  | error e =>
    rw [fetchEnhanced_eq_res_err chatId probe feed dateFrom dateTo e hres] at hok
    simp at hok
  | ok ep =>
    rcases hlo : fetchGo ep feed dateFrom dateTo maxPages 0 [] with ⟨tr, res⟩
    cases res with
    | error e =>
      rw [fetchEnhanced_eq_err chatId probe feed dateFrom dateTo ep e hres tr hlo] at hok
      simp at hok
    | ok pr =>
      rcases pr with ⟨ms, pg⟩
      rw [fetchEnhanced_eq_ok chatId probe feed dateFrom dateTo ep hres tr ms pg hlo] at hok
      simp only [Except.ok.injEq] at hok
      subst hok
      constructor
      · intro m hm
        have hmem : m ∈ ms := (List.perm_insertionSort byTime ms).mem_iff.mp hm
        have hor := fetchGo_result_mem ep feed dateFrom dateTo maxPages 0 [] ms pg
          (by rw [hlo]) m hmem
        rcases hor with h0 | h0
        · simp at h0
        · simp only [inRangeB, Bool.and_eq_true, decide_eq_true_eq] at h0
          exact h0
      · exact List.sorted_insertionSort byTime ms

/-- C1 (witness): the statement at a one-page feed holding a single
in-range record. -/
theorem fetchEnhanced_inRange_sorted_wit :
    (∀ m ∈ [recW], (0 : Int) ≤ m.creationTime ∧ m.creationTime ≤ 10) ∧
    List.Sorted byTime [recW] :=
  fetchEnhanced_inRange_sorted "g" (.ok ()) feedOneW 0 10 [recW] (by decide) rfl

/-- C2: when some page of the feed holds a record strictly older than the
window start (with the earlier pages holding none), the fetcher issues no
page request past that page; when the run actually reaches that page
(all earlier pages non-empty, in-window, tokened, and the page index is
below the cap), it requests exactly the pages up to and including it and
stops there. -/
theorem fetchEnhanced_stops_at_first_older (chatId : String)
    (probe : Except ProbeError Unit) (feed : Nat → Except (Option Int) Page)
    (dateFrom dateTo : Int) (ep : String) (j : Nat) (pj : Page)
    (hres : resolveEndpoint chatId probe = .ok ep)
    (hj : feed j = .ok pj)
    (hbad : pj.records.any (olderB dateFrom) = true)
    (hfirst : ∀ i, i < j → ∀ q, feed i = .ok q →
      q.records.any (olderB dateFrom) = false) :
    pageReqCount (fetchChatMessagesEnhanced chatId probe feed dateFrom dateTo) ≤ j + 1 ∧
    ((∀ i, i < j → contPageB dateFrom (feed i) = true) → j < maxPages →
      pageReqCount (fetchChatMessagesEnhanced chatId probe feed dateFrom dateTo) = j + 1) := by
  constructor
  · rcases hlo : fetchGo ep feed dateFrom dateTo maxPages 0 [] with ⟨tr, res⟩
    have hlen : tr.length ≤ j + 1 := by
      have hb := fetchGo_trace_le_bad ep feed dateFrom dateTo j pj hj hbad maxPages 0 []
        (by omega)
      rw [hlo] at hb
      simpa using hb
    have htrp : ∀ r ∈ tr, r = Req.page ep := fun r hr =>
      fetchGo_trace_pages ep feed dateFrom dateTo maxPages 0 [] r (by rw [hlo]; exact hr)
    cases res with
    | error e =>
      rw [fetchEnhanced_eq_err chatId probe feed dateFrom dateTo ep e hres tr hlo,
          pageReqCount_probe_cons (teamsEndpoint chatId) tr false (.error e) ep htrp]
      exact hlen
    | ok pr =>
      rcases pr with ⟨ms, pg⟩
      rw [fetchEnhanced_eq_ok chatId probe feed dateFrom dateTo ep hres tr ms pg hlo,
          pageReqCount_probe_cons (teamsEndpoint chatId) tr (decide (maxPages ≤ pg))
            (.ok (sortMessages ms)) ep htrp]
      exact hlen
  · intro hcont hjm
    have heq := fetchGo_cont_then_bad ep feed dateFrom dateTo pj hbad j 0 maxPages []
      (by omega) (fun i hi => by simpa using hcont i hi) (by simpa using hj)
    rw [fetchEnhanced_eq_ok chatId probe feed dateFrom dateTo ep hres _ _ _ heq,
        pageReqCount_probe_cons (teamsEndpoint chatId) _ _ _ ep
          (fun r hr => List.eq_of_mem_replicate hr)]
    simp

/-- C2 (witness): the exact-count statement at a feed whose second page
contains a record older than the window. -/
theorem fetchEnhanced_stops_at_first_older_wit :
    pageReqCount (fetchChatMessagesEnhanced "g" (.ok ()) feedOldW 0 10) = 2 :=
  (fetchEnhanced_stops_at_first_older "g" (.ok ()) feedOldW 0 10 (teamsEndpoint "g") 1
    ⟨[recOldW, recW], some "tok"⟩ rfl rfl (by decide)
    (by
      intro i hi q hq
      have hi0 : i = 0 := by omega
      subst hi0
      have h0 : feedOldW 0 = .ok ⟨[recW], some "tok"⟩ := rfl
      rw [h0] at hq
      have hq2 := Except.ok.inj hq
      rw [← hq2]
      decide)).2 (by decide) (by decide)

/-- C3: when the first `maxPages` pages of the feed all continue the walk
(non-empty, fully inside or after the window, tokened), the fetch issues
exactly 20 page requests, logs the cap warning, and still returns the
in-range messages collected so far, sorted: hitting the cap is non-fatal. -/
theorem fetchEnhanced_cap_partial (chatId : String) (probe : Except ProbeError Unit)
    (feed : Nat → Except (Option Int) Page) (dateFrom dateTo : Int) (ep : String)
    (hres : resolveEndpoint chatId probe = .ok ep)
    (hcont : ∀ i, i < maxPages → contPageB dateFrom (feed i) = true) :
    pageReqCount (fetchChatMessagesEnhanced chatId probe feed dateFrom dateTo) = 20 ∧
    (fetchChatMessagesEnhanced chatId probe feed dateFrom dateTo).warned = true ∧
    (fetchChatMessagesEnhanced chatId probe feed dateFrom dateTo).result =
      .ok (sortMessages (pagesFilterConcat feed dateFrom dateTo 0 maxPages)) := by
  have heq := fetchGo_all_cont ep feed dateFrom dateTo maxPages 0 []
    (fun i hi => by simpa using hcont i hi)
  have hrun := fetchEnhanced_eq_ok chatId probe feed dateFrom dateTo ep hres _ _ _ heq
  refine ⟨?_, ?_, ?_⟩
  · rw [hrun, pageReqCount_probe_cons (teamsEndpoint chatId) _ _ _ ep
      (fun r hr => List.eq_of_mem_replicate hr)]
    simp [maxPages]
  · rw [hrun]
    simp [maxPages]
  · rw [hrun]
    simp

/-- C3 (witness): the statement at a feed with unbounded in-range history. -/
theorem fetchEnhanced_cap_partial_wit :
    pageReqCount (fetchChatMessagesEnhanced "g" (.ok ()) feedCapW 0 10) = 20 ∧
    (fetchChatMessagesEnhanced "g" (.ok ()) feedCapW 0 10).warned = true ∧
    (fetchChatMessagesEnhanced "g" (.ok ()) feedCapW 0 10).result =
      .ok (sortMessages (pagesFilterConcat feedCapW 0 10 0 maxPages)) :=
  fetchEnhanced_cap_partial "g" (.ok ()) feedCapW 0 10 (teamsEndpoint "g") rfl (by decide)

/-- C7: when a page request inside the pagination loop fails (the loop
having walked that far), the whole fetch aborts with the typed `APIError`
naming the endpoint and the one-based page index, and no messages are
returned: earlier in-range pages are discarded. -/
theorem fetchEnhanced_page_failure_aborts (chatId : String)
    (probe : Except ProbeError Unit) (feed : Nat → Except (Option Int) Page)
    (dateFrom dateTo : Int) (ep : String) (k : Nat) (st : Option Int)
    (hres : resolveEndpoint chatId probe = .ok ep)
    (hcont : ∀ i, i < k → contPageB dateFrom (feed i) = true)
    (hk : feed k = .error st) (hklt : k < maxPages) :
    (fetchChatMessagesEnhanced chatId probe feed dateFrom dateTo).result =
      .error ⟨"Failed to fetch page " ++ toString (k + 1) ++ " from " ++ ep,
              st, "RingCentral"⟩ ∧
    ∀ msgs, (fetchChatMessagesEnhanced chatId probe feed dateFrom dateTo).result ≠
      .ok msgs := by
  have heq := fetchGo_cont_then_err ep feed dateFrom dateTo st k 0 maxPages []
    (by omega) (fun i hi => by simpa using hcont i hi) (by simpa using hk)
  rw [show (0 : Nat) + k + 1 = k + 1 from by omega] at heq
  have hrun := fetchEnhanced_eq_err chatId probe feed dateFrom dateTo ep _ hres _ heq
  refine ⟨by rw [hrun], ?_⟩
  intro msgs
  rw [hrun]
  simp

/-- C7 (witness): the abort statement at a feed whose second page request
fails with status 500. -/
theorem fetchEnhanced_page_failure_aborts_wit :
    (fetchChatMessagesEnhanced "g" (.ok ()) feedErrW 0 10).result =
      .error ⟨"Failed to fetch page " ++ toString (1 + 1) ++ " from " ++ teamsEndpoint "g",
              some 500, "RingCentral"⟩ :=
  (fetchEnhanced_page_failure_aborts "g" (.ok ()) feedErrW 0 10 (teamsEndpoint "g") 1
    (some 500) rfl (by decide) rfl (by decide)).1

/-- C6: the enhanced fetch issues exactly one probe, to the teams route
variant, at the head of its request trace; a successful probe means the
chats variant is never requested; a 404 probe failure means every
subsequent page request uses the chats variant; any other probe failure
aborts with a resolution `APIError` naming the conversation identifier,
before any page request. -/
theorem routeResolution_probe_once (chatId : String) (probe : Except ProbeError Unit)
    (feed : Nat → Except (Option Int) Page) (dateFrom dateTo : Int) :
    (fetchChatMessagesEnhanced chatId probe feed dateFrom dateTo).requests.head? =
      some (Req.probe (teamsEndpoint chatId)) ∧
    (fetchChatMessagesEnhanced chatId probe feed dateFrom dateTo).requests.countP
      Req.isProbe = 1 ∧
    (probe = .ok () →
      ∀ r ∈ (fetchChatMessagesEnhanced chatId probe feed dateFrom dateTo).requests,
        r ≠ Req.page (chatsEndpoint chatId)) ∧
    (∀ e, probe = .error e → e.responseStatus = some 404 →
      ∀ r ∈ (fetchChatMessagesEnhanced chatId probe feed dateFrom dateTo).requests.tail,
        r = Req.page (chatsEndpoint chatId)) ∧
    (∀ e, probe = .error e → e.responseStatus ≠ some 404 →
      (fetchChatMessagesEnhanced chatId probe feed dateFrom dateTo).result =
        .error ⟨"Failed to determine endpoint for chat " ++ chatId, e.status,
                "RingCentral"⟩ ∧
      (fetchChatMessagesEnhanced chatId probe feed dateFrom dateTo).requests =
        [Req.probe (teamsEndpoint chatId)]) := by
  obtain ⟨tr, hreq, htr⟩ := fetchEnhanced_requests_shape chatId probe feed dateFrom dateTo
  refine ⟨by rw [hreq]; rfl, ?_, ?_, ?_, ?_⟩
  · rw [hreq, List.countP_cons]
    have hz : tr.countP Req.isProbe = 0 := by
      rw [List.countP_eq_zero]
      intro r hr
      obtain ⟨ep, _, hrp⟩ := htr r hr
      subst hrp
      simp [Req.isProbe]
    simp [hz, Req.isProbe]
  · intro hp r hr hcontra
    rw [hreq] at hr
    rcases List.mem_cons.mp hr with h | h
    · subst h
      exact Req.noConfusion hcontra
    · obtain ⟨ep, hres, hrp⟩ := htr r h
      rw [hp] at hres
      simp only [resolveEndpoint, Except.ok.injEq] at hres
      subst hrp
      have hec := Req.page.inj hcontra
      exact teamsEndpoint_ne_chatsEndpoint chatId (hres.trans hec)
  · intro e hp h404 r hr
    rw [hreq] at hr
    simp only [List.tail_cons] at hr
    obtain ⟨ep, hres, hrp⟩ := htr r hr
    rw [hp] at hres
    simp only [resolveEndpoint, h404, if_true, Except.ok.injEq] at hres
    subst hrp
    rw [← hres]
  · intro e hp h404
    have hres : resolveEndpoint chatId probe =
        .error ⟨"Failed to determine endpoint for chat " ++ chatId, e.status,
                "RingCentral"⟩ := by
      rw [hp]
      simp [resolveEndpoint, h404]
    have hrun := fetchEnhanced_eq_res_err chatId probe feed dateFrom dateTo _ hres
    exact ⟨by rw [hrun], by rw [hrun]⟩

/-- C6 (witness): the probe statement at a succeeding probe and a one-page
feed. -/
theorem routeResolution_probe_once_wit :
    (fetchChatMessagesEnhanced "g" (.ok ()) feedOneW 0 10).requests.head? =
      some (Req.probe (teamsEndpoint "g")) ∧
    (fetchChatMessagesEnhanced "g" (.ok ()) feedOneW 0 10).requests.countP
      Req.isProbe = 1 :=
  ⟨(routeResolution_probe_once "g" (.ok ()) feedOneW 0 10).1,
   (routeResolution_probe_once "g" (.ok ()) feedOneW 0 10).2.1⟩

/-- Looking up the service just stored finds the stored stats. -/
theorem lookupStats_setStats_same (l : List (String × ServiceStats)) (s : String)
    (v : ServiceStats) : lookupStats (setStats l s v) s = some v := by
  induction l with
  | nil => simp [setStats, lookupStats]
  | cons p rest ih =>
    rcases p with ⟨k, w⟩
    by_cases hk : k = s
    · simp [setStats, lookupStats, hk]
    · simp [setStats, lookupStats, hk, ih]

/-- Storing one service leaves every other service untouched. -/
theorem lookupStats_setStats_other (l : List (String × ServiceStats)) (s s' : String)
    (v : ServiceStats) (hne : s' ≠ s) :
    lookupStats (setStats l s v) s' = lookupStats l s' := by
  induction l with
  | nil =>
    simp only [setStats, lookupStats]
    rw [if_neg (fun h : s = s' => hne h.symm)]
  | cons p rest ih =>
    rcases p with ⟨k, w⟩
    by_cases hk : k = s
    · subst hk
      have hks : ¬k = s' := fun h => hne (h.symm)
      simp [setStats, lookupStats, hks]
    · by_cases hk2 : k = s'
      · subst hk2
        simp [setStats, lookupStats, hk]
      · simp [setStats, lookupStats, hk, hk2, ih]

/-- Every pair in the stored table is the stored pair or an original one. -/
theorem mem_setStats (l : List (String × ServiceStats)) (s : String) (v : ServiceStats)
    (p : String × ServiceStats) : p ∈ setStats l s v → p = (s, v) ∨ p ∈ l := by
  induction l with
  | nil =>
    intro hp
    rw [show setStats [] s v = [(s, v)] from rfl] at hp
    rcases List.mem_cons.mp hp with h | h
    · exact Or.inl h
    · simp at h
  | cons q rest ih =>
    rcases q with ⟨k, w⟩
    intro hp
    by_cases hk : k = s
    · rw [show setStats ((k, w) :: rest) s v =
          (if k = s then (k, v) :: rest else (k, w) :: setStats rest s v) from rfl,
        if_pos hk] at hp
      rcases List.mem_cons.mp hp with h | h
      · rw [hk] at h
        exact Or.inl h
      · exact Or.inr (List.mem_cons_of_mem _ h)
    · rw [show setStats ((k, w) :: rest) s v =
          (if k = s then (k, v) :: rest else (k, w) :: setStats rest s v) from rfl,
        if_neg hk] at hp
      rcases List.mem_cons.mp hp with h | h
      · exact Or.inr (by rw [h]; exact List.mem_cons_self _ _)
      · rcases ih h with hi | hi
        · exact Or.inl hi
        · exact Or.inr (List.mem_cons_of_mem _ hi)

/-- A successful lookup exhibits a member of the table. -/
theorem lookupStats_mem (l : List (String × ServiceStats)) (s : String)
    (w : ServiceStats) (h : lookupStats l s = some w) : (s, w) ∈ l := by
  induction l with
  | nil => simp [lookupStats] at h
  | cons p rest ih =>
    rcases p with ⟨k, kv⟩
    by_cases hk : k = s
    · subst hk
      simp [lookupStats] at h
      rw [← h]
      exact List.mem_cons_self _ _
    · simp [lookupStats, hk] at h
      exact List.mem_cons_of_mem _ (ih h)

/-- One metrics event preserves the counter soundness invariant. -/
theorem statsWF_applyOp (st : DiagState) (op : DiagOp) (h : statsWF st) :
    statsWF (applyOp st op) := by
  rcases h with ⟨hrc, hsv⟩
  cases op with
  | request isErr =>
    constructor
    · show st.errorCount + (if isErr then 1 else 0) ≤ st.requestCount + 1
      split <;> omega
    · intro p hp
      exact hsv p hp
  | apiCall sv d isErr =>
    constructor
    · exact hrc
    · intro p hp
      cases hl : lookupStats st.apiCallStats sv with
      | none =>
        have hset : (applyOp st (DiagOp.apiCall sv d isErr)).apiCallStats =
            setStats st.apiCallStats sv ⟨1, if isErr then 1 else 0, d⟩ := by
          simp [applyOp, recordApiCall, hl]
        rw [hset] at hp
        rcases mem_setStats _ _ _ p hp with hp1 | hp1
        · rw [hp1]
          show (if isErr then 1 else 0) ≤ 1
          split <;> omega
        · exact hsv p hp1
      | some cur =>
        have hcur : cur.errors ≤ cur.calls := hsv (sv, cur) (lookupStats_mem _ _ _ hl)
        have hset : (applyOp st (DiagOp.apiCall sv d isErr)).apiCallStats =
            setStats st.apiCallStats sv
              ⟨cur.calls + 1, cur.errors + (if isErr then 1 else 0),
               cur.totalTime + d⟩ := by
          simp [applyOp, recordApiCall, hl]
        rw [hset] at hp
        rcases mem_setStats _ _ _ p hp with hp1 | hp1
        · rw [hp1]
          show cur.errors + (if isErr then 1 else 0) ≤ cur.calls + 1
          split <;> omega
        · exact hsv p hp1

/-- One metrics event only increments the counters (durations assumed
non-negative for the running total). -/
theorem applyOp_mono (st : DiagState) (op : DiagOp) (hop : opDurOkB op = true) :
    st.requestCount ≤ (applyOp st op).requestCount ∧
    st.errorCount ≤ (applyOp st op).errorCount ∧
    ∀ s cur, lookupStats st.apiCallStats s = some cur →
      ∃ nw, lookupStats (applyOp st op).apiCallStats s = some nw ∧
        cur.calls ≤ nw.calls ∧ cur.errors ≤ nw.errors ∧ cur.totalTime ≤ nw.totalTime := by
  cases op with
  | request isErr =>
    refine ⟨?_, ?_, ?_⟩
    · show st.requestCount ≤ st.requestCount + 1
      omega
    · show st.errorCount ≤ st.errorCount + (if isErr then 1 else 0)
      split <;> omega
    · intro s cur hl
      exact ⟨cur, hl, le_refl _, le_refl _, le_refl _⟩
  | apiCall sv d isErr =>
    have hd : (0 : Int) ≤ d := by simpa [opDurOkB] using hop
    refine ⟨le_refl _, le_refl _, ?_⟩
    intro s cur hl
    by_cases hs : s = sv
    · subst hs
      have hset : (applyOp st (DiagOp.apiCall s d isErr)).apiCallStats =
          setStats st.apiCallStats s
            ⟨cur.calls + 1, cur.errors + (if isErr then 1 else 0),
             cur.totalTime + d⟩ := by
        simp [applyOp, recordApiCall, hl]
      refine ⟨⟨cur.calls + 1, cur.errors + (if isErr then 1 else 0), cur.totalTime + d⟩,
        by rw [hset]; exact lookupStats_setStats_same _ _ _, ?_, ?_, ?_⟩
      · show cur.calls ≤ cur.calls + 1
        omega
      · show cur.errors ≤ cur.errors + (if isErr then 1 else 0)
        split <;> omega
      · show cur.totalTime ≤ cur.totalTime + d
        omega
    · refine ⟨cur, ?_, le_refl _, le_refl _, le_refl _⟩
      have hset : (applyOp st (DiagOp.apiCall sv d isErr)).apiCallStats =
          setStats st.apiCallStats sv
            ⟨((lookupStats st.apiCallStats sv).getD ⟨0, 0, 0⟩).calls + 1,
             ((lookupStats st.apiCallStats sv).getD ⟨0, 0, 0⟩).errors +
               (if isErr then 1 else 0),
             ((lookupStats st.apiCallStats sv).getD ⟨0, 0, 0⟩).totalTime + d⟩ := by
        simp [applyOp, recordApiCall]
      rw [hset, lookupStats_setStats_other _ _ _ _ hs]
      exact hl

/-- Recording a call for an unseen service initializes a zeroed entry and
applies the increments to it. -/
theorem recordApiCall_unseen (st : DiagState) (s : String) (d : Int) (isErr : Bool)
    (h : lookupStats st.apiCallStats s = none) :
    lookupStats (applyOp st (.apiCall s d isErr)).apiCallStats s =
      some ⟨1, if isErr then 1 else 0, d⟩ := by
  have hset : (applyOp st (DiagOp.apiCall s d isErr)).apiCallStats =
      setStats st.apiCallStats s ⟨1, if isErr then 1 else 0, d⟩ := by
    simp [applyOp, recordApiCall, h]
  rw [hset]
  exact lookupStats_setStats_same _ _ _

/-- C10: the metrics counters of the diagnostics manager only increment
(request and error counts, and per-service calls, errors and - for
non-negative durations - total time); after any sequence of recorded
events starting from the constructed state, the error count never exceeds
the request count and per-service errors never exceed calls; recording a
call for an unseen service initializes a zeroed entry rather than failing. -/
theorem diagnostics_counters_monotone_sound (now : Int) (ops : List DiagOp) :
    (∀ st op, opDurOkB op = true →
      st.requestCount ≤ (applyOp st op).requestCount ∧
      st.errorCount ≤ (applyOp st op).errorCount ∧
      ∀ s cur, lookupStats st.apiCallStats s = some cur →
        ∃ nw, lookupStats (applyOp st op).apiCallStats s = some nw ∧
          cur.calls ≤ nw.calls ∧ cur.errors ≤ nw.errors ∧
          cur.totalTime ≤ nw.totalTime) ∧
    statsWF (applyOps (initState now) ops) ∧
    (∀ st s d isErr, lookupStats st.apiCallStats s = none →
      lookupStats (applyOp st (.apiCall s d isErr)).apiCallStats s =
        some ⟨1, if isErr then 1 else 0, d⟩) := by
  refine ⟨fun st op hop => applyOp_mono st op hop, ?_,
    fun st s d isErr h => recordApiCall_unseen st s d isErr h⟩
  have hinit : statsWF (initState now) := by
    constructor
    · exact le_refl 0
    · intro p hp
      simp [initState] at hp
      rcases hp with h1 | h1 <;> simp [h1]
  have hfold : ∀ (l : List DiagOp) (st : DiagState), statsWF st →
      statsWF (applyOps st l) := by
    intro l
    induction l with
    | nil => intro st h; exact h
    | cons op rest ih =>
      intro st h
      exact ih (applyOp st op) (statsWF_applyOp st op h)
  exact hfold ops (initState now) hinit

/-- C10 (witness): the soundness invariant after a concrete sequence of
recorded events, including an unseen service. -/
theorem diagnostics_counters_monotone_sound_wit :
    statsWF (applyOps (initState 0) opsW) :=
  (diagnostics_counters_monotone_sound 0 opsW).2.1
